import Mathlib

/-!
Verification of the OpenCall MLS wasm adapter (`packages/protocol/wasm/src`).

The adapter (`mls_client.rs`) coordinates group sessions: every operation
loads the persisted group state for the session's group id from storage,
asks the external MLS protocol engine (the `openmls` crate, an external
collaborator, out of scope for this repository) for one transition, persists
the result via `MlsGroup::save`, and serializes the output.

The embedding below is state-passing: every adapter operation takes the
current storage value and returns the final storage value paired with an
`Except Error` result, mirroring the fact that `&self.storage` is a shared
mutable handle in the Rust code — writes that happened before a later error
are not rolled back.

The protocol engine itself is not part of this repository; it is embedded
as a structure of abstract transition functions over an `EngineState`
carrying the observations the adapter reads (`group_id`, `epoch`,
`members`). Properties of the engine that a claim needs are stated as
explicit predicates on that structure, modelled from the spec's description
of the engine collaborator.
-/

/-- Byte strings (`Vec<u8>` / `&[u8]`) are lists of naturals. -/
abbrev Bytes := List Nat

/-- Key packages are opaque engine values; the adapter only deserializes,
hashes, stores and re-serializes them. -/
abbrev KeyPackage := Bytes

/-- Credentials as the adapter observes them through `member.credential`:
a basic credential carrying raw identity bytes, or any non-basic kind
(e.g. X.509), whose payload the adapter never inspects. -/
inductive Credential where
  | basic (data : Bytes)
  | nonBasic (data : Bytes)
deriving DecidableEq, Repr

/-- A group member as yielded by the engine's `members()` iterator:
a leaf index and a credential. -/
structure Member where
  index : Nat
  credential : Credential
deriving DecidableEq, Repr

/-- The in-memory `MlsGroup` value as the adapter observes it: its group id
(`group_id()`), its epoch counter (`epoch().as_u64()`), its member list
(`members()`), and an opaque remainder `blob` standing for the secrets,
ratchet tree and proposal queues the adapter never reads. -/
structure EngineState where
  gid : Bytes
  epoch : Nat
  members : List Member
  blob : Bytes
deriving DecidableEq, Repr

/-- The classification returned by `process_unverified_message(...).into_content()`,
with the four variants matched in `decrypt_message`. -/
inductive ProcessedMessageContent where
  | applicationMessage (bytes : Bytes)
  | proposalMessage
  | exhumerMessage
  | stagedCommitMessage
deriving DecidableEq, Repr

/-- The adapter's unified error taxonomy (`error.rs`). -/
inductive Error where
  | openMlsError (msg : String)
  | invalidState (msg : String)
  | memberNotFound (msg : String)
  | invalidMessageType (msg : String)
  | serializationError (msg : String)
  | codecError (msg : String)
  | storageError (msg : String)
  | cryptoError (msg : String)
deriving DecidableEq, Repr

-- Decidable equality for `Except`, to evaluate adapter results on concrete inputs.
deriving instance DecidableEq for Except

/-- The `MLSCommit` boundary value (`types.rs`): one opaque commit buffer and
a list of opaque welcome buffers. -/
structure MLSCommit where
  commit : Bytes
  welcome : List Bytes
deriving DecidableEq, Repr

/-- The `MLSCiphertext` boundary value (`types.rs`): opaque ciphertext bytes
and the epoch they were produced at. -/
structure MLSCiphertext where
  data : Bytes
  epoch : Nat
deriving DecidableEq, Repr

/-- Association-list lookup by byte-string key, the model of a key-value
read in the in-memory store. -/
def assocGet {α : Type} : List (Bytes × α) → Bytes → Option α
  | [], _ => none
  | (k', v) :: rest, k => if k' = k then some v else assocGet rest k

/-- Association-list insert-or-overwrite by byte-string key, the model of a
key-value write in the in-memory store. -/
def assocPut {α : Type} : List (Bytes × α) → Bytes → α → List (Bytes × α)
  | [], k, v => [(k, v)]
  | (k', v') :: rest, k, v =>
    if k' = k then (k, v) :: rest else (k', v') :: assocPut rest k v

/-- The in-memory store backing `MLSStorage` (a wrapper around the engine's
`MemoryStorage`): the two key spaces the adapter's code paths exercise,
group states keyed by group id and key packages keyed by hash reference. -/
structure MemStore where
  groupStates : List (Bytes × EngineState)
  keyPackages : List (Bytes × KeyPackage)
deriving DecidableEq, Repr

/-- The storage contract as `storage.rs` implements it (the
`StorageProvider` trait): fallible reads and writes per key space, restricted
to the operations `mls_client.rs` reaches. Reads return an optional value;
absence is not an error. -/
structure StorageOps (σ : Type) where
  readGroupState : σ → Bytes → Except String (Option EngineState)
  writeGroupState : σ → Bytes → EngineState → Except String σ
  readKeyPackage : σ → Bytes → Except String (Option KeyPackage)
  writeKeyPackage : σ → Bytes → KeyPackage → Except String σ

/-- The concrete storage the adapter always uses (`MLSStorage::new()`
delegates every call to the engine's in-memory `MemoryStorage`): reads and
writes on association lists, never failing. -/
def memStorageOps : StorageOps MemStore where
  readGroupState st k := .ok (assocGet st.groupStates k)
  writeGroupState st k v := .ok { st with groupStates := assocPut st.groupStates k v }
  readKeyPackage st k := .ok (assocGet st.keyPackages k)
  writeKeyPackage st k v := .ok { st with keyPackages := assocPut st.keyPackages k v }

/-- The external MLS protocol engine (the `openmls` crate), embedded as
abstract transition functions over `EngineState`. Each field corresponds to
one engine entry point the adapter calls; all are fallible, failures
carrying the engine's error text. -/
structure Engine where
  /-- `MlsGroup::new_with_group_id(provider, signer, config, group_id, credential)`. -/
  newGroup : Bytes → Bytes → Except String EngineState
  /-- `group.add_members(provider, storage, &[key_package])`: returns the
  updated group plus `(MlsMessageOut, Option<Welcome>)` (the group-info
  component is discarded by the adapter). -/
  addMembers : EngineState → KeyPackage → Except String (EngineState × Bytes × Option Bytes)
  /-- `group.remove_members(provider, storage, &[leaf_index])`. -/
  removeMembers : EngineState → Nat → Except String (EngineState × Bytes × Option Bytes)
  /-- `group.create_message(provider, storage, plaintext)`: returns the
  updated group (ratchet advancement) and an `MlsMessageOut`. -/
  createMessage : EngineState → Bytes → Except String (EngineState × Bytes)
  /-- `MlsMessageIn::tls_deserialize_exact(bytes)`. -/
  deserializeMsgIn : Bytes → Except String Bytes
  /-- `group.parse_message(msg, provider, storage)`: returns the updated
  group and an unverified message. -/
  parseMessage : EngineState → Bytes → Except String (EngineState × Bytes)
  /-- `group.process_unverified_message(unverified, None, provider, storage)`:
  returns the updated group and the processed message's classified content. -/
  processUnverified : EngineState → Bytes → Except String (EngineState × ProcessedMessageContent)
  /-- `KeyPackageIn::tls_deserialize_exact(bytes)`. -/
  deserializeKeyPackage : Bytes → Except String KeyPackage
  /-- `KeyPackage::builder().build(config, provider, signer, credential)`. -/
  buildKeyPackage : Bytes → Except String KeyPackage
  /-- `key_package.hash_ref(provider)`. -/
  hashRef : KeyPackage → Except String Bytes
  /-- `key_package.tls_serialize_detached()`. -/
  serializeKeyPackage : KeyPackage → Except String Bytes
  /-- `tls_serialize_detached()` on an outgoing message or welcome. -/
  tlsSerialize : Bytes → Except String Bytes

/-- Helper: is the byte a UTF-8 continuation byte (`0x80..=0xBF`)? -/
def isCont (b : Nat) : Bool := 0x80 ≤ b && b ≤ 0xBF

/-- Fuelled UTF-8 decoding with replacement of invalid maximal subparts by
U+FFFD, the behaviour of Rust's `String::from_utf8_lossy`. The fuel only
bounds recursion; it is instantiated with the input length. -/
def utf8LossyGo : Nat → List Nat → List Char
  | 0, _ => []
  | _ + 1, [] => []
  | fuel + 1, b :: rest =>
    if b < 0x80 then Char.ofNat b :: utf8LossyGo fuel rest
    else if 0xC2 ≤ b && b ≤ 0xDF then
      match rest with
      | [] => ['�']
      | b2 :: rest2 =>
        if isCont b2 then
          Char.ofNat ((b - 0xC0) * 0x40 + (b2 - 0x80)) :: utf8LossyGo fuel rest2
        else '�' :: utf8LossyGo fuel rest
    else if 0xE0 ≤ b && b ≤ 0xEF then
      match rest with
      | [] => ['�']
      | b2 :: rest2 =>
        if (b = 0xE0 && 0xA0 ≤ b2 && b2 ≤ 0xBF) ||
           (0xE1 ≤ b && b ≤ 0xEC && isCont b2) ||
           (b = 0xED && 0x80 ≤ b2 && b2 ≤ 0x9F) ||
           (0xEE ≤ b && isCont b2) then
          match rest2 with
          | [] => ['�']
          | b3 :: rest3 =>
            if isCont b3 then
              Char.ofNat ((b - 0xE0) * 0x1000 + (b2 - 0x80) * 0x40 + (b3 - 0x80)) ::
                utf8LossyGo fuel rest3
            else '�' :: utf8LossyGo fuel rest2
        else '�' :: utf8LossyGo fuel rest
    else if 0xF0 ≤ b && b ≤ 0xF4 then
      match rest with
      | [] => ['�']
      | b2 :: rest2 =>
        if (b = 0xF0 && 0x90 ≤ b2 && b2 ≤ 0xBF) ||
           (0xF1 ≤ b && b ≤ 0xF3 && isCont b2) ||
           (b = 0xF4 && 0x80 ≤ b2 && b2 ≤ 0x8F) then
          match rest2 with
          | [] => ['�']
          | b3 :: rest3 =>
            if isCont b3 then
              match rest3 with
              | [] => ['�']
              | b4 :: rest4 =>
                if isCont b4 then
                  Char.ofNat ((b - 0xF0) * 0x40000 + (b2 - 0x80) * 0x1000 +
                      (b3 - 0x80) * 0x40 + (b4 - 0x80)) :: utf8LossyGo fuel rest4
                else '�' :: utf8LossyGo fuel rest3
            else '�' :: utf8LossyGo fuel rest2
        else '�' :: utf8LossyGo fuel rest
    else '�' :: utf8LossyGo fuel rest

/-- Rust's `String::from_utf8_lossy` over a byte list. -/
def utf8Lossy (data : Bytes) : String := String.mk (utf8LossyGo data.length data)

namespace MLSGroup

/-- `MLSGroup::load_group` (`mls_client.rs` lines 328-334): read the group
state stored under the session's exact group id; a storage failure maps to
`StorageError`, absence maps to `InvalidState`. Read-only. -/
def load_group {σ : Type} (S : StorageOps σ) (st : σ) (gid : Bytes) :
    Except Error EngineState :=
  match S.readGroupState st gid with
  | .error m => .error (.storageError m)
  | .ok none => .error (.invalidState "Group not found in storage")
  | .ok (some g) => .ok g

/-- The member-matching predicate inlined in `MLSGroup::remove_member`
(lines 203-209): a member matches iff its credential is basic and the lossy
UTF-8 decoding of the credential bytes equals the requested identifier. -/
def matchesMemberId (member_id : String) (m : Member) : Bool :=
  match m.credential with
  | .basic data => utf8Lossy data == member_id
  | .nonBasic _ => false

/-- `MLSGroup::add_member` (lines 160-193): load, deserialize the key
package, request a commit-with-add from the engine, save the updated group
state, serialize the commit and the optional welcome, return an `MLSCommit`. -/
def add_member {σ : Type} (S : StorageOps σ) (e : Engine) (st : σ) (gid : Bytes)
    (key_package_bytes : Bytes) : σ × Except Error MLSCommit :=
  match load_group S st gid with
  | .error err => (st, .error err)
  | .ok group =>
  match e.deserializeKeyPackage key_package_bytes with
  | .error m => (st, .error (.codecError m))
  | .ok key_package =>
  match e.addMembers group key_package with
  | .error m => (st, .error (.openMlsError m))
  | .ok (group, mls_message_out, welcome_out) =>
  match S.writeGroupState st group.gid group with
  | .error m => (st, .error (.storageError m))
  | .ok st' =>
  match e.tlsSerialize mls_message_out with
  | .error m => (st', .error (.codecError m))
  | .ok commit_bytes =>
  match welcome_out with
  | some welcome =>
    match e.tlsSerialize welcome with
    | .error m => (st', .error (.codecError m))
    | .ok wb => (st', .ok { commit := commit_bytes, welcome := [wb] })
  | none => (st', .ok { commit := commit_bytes, welcome := [] })

/-- `MLSGroup::remove_member` (lines 196-240): load, scan `members()` for
the first basic credential whose lossy decoding equals `member_id` (fails
with `MemberNotFound` otherwise), request a commit-with-remove for that
leaf index, save, serialize, return an `MLSCommit`. -/
def remove_member {σ : Type} (S : StorageOps σ) (e : Engine) (st : σ) (gid : Bytes)
    (member_id : String) : σ × Except Error MLSCommit :=
  match load_group S st gid with
  | .error err => (st, .error err)
  | .ok group =>
  match group.members.find? (matchesMemberId member_id) with
  | none => (st, .error (.memberNotFound member_id))
  | some member_to_remove =>
  match e.removeMembers group member_to_remove.index with
  | .error m => (st, .error (.openMlsError m))
  | .ok (group, mls_message_out, welcome_out) =>
  match S.writeGroupState st group.gid group with
  | .error m => (st, .error (.storageError m))
  | .ok st' =>
  match e.tlsSerialize mls_message_out with
  | .error m => (st', .error (.codecError m))
  | .ok commit_bytes =>
  match welcome_out with
  | some welcome =>
    match e.tlsSerialize welcome with
    | .error m => (st', .error (.codecError m))
    | .ok wb => (st', .ok { commit := commit_bytes, welcome := [wb] })
  | none => (st', .ok { commit := commit_bytes, welcome := [] })

/-- `MLSGroup::encrypt_message` (lines 243-261): load, request an
application-message encryption from the engine, serialize, and return an
`MLSCiphertext` stamped with `group.epoch()` read from the post-encryption
in-memory group. Note: the source contains no `group.save(&self.storage)`
call on this path, so the storage value is returned unchanged. -/
def encrypt_message {σ : Type} (S : StorageOps σ) (e : Engine) (st : σ) (gid : Bytes)
    (plaintext : Bytes) : σ × Except Error MLSCiphertext :=
  match load_group S st gid with
  | .error err => (st, .error err)
  | .ok group =>
  match e.createMessage group plaintext with
  | .error m => (st, .error (.openMlsError m))
  | .ok (group, mls_message_out) =>
  match e.tlsSerialize mls_message_out with
  | .error m => (st, .error (.codecError m))
  | .ok ciphertext_bytes =>
  (st, .ok { data := ciphertext_bytes, epoch := group.epoch })

/-- `MLSGroup::decrypt_message` (lines 264-297): load, deserialize the
incoming message, parse and process it through the engine, save the updated
group state, then match the classified content: only an application message
is returned; every other classification fails with `InvalidMessageType`
(the save has already happened by then). -/
def decrypt_message {σ : Type} (S : StorageOps σ) (e : Engine) (st : σ) (gid : Bytes)
    (ciphertext_bytes : Bytes) : σ × Except Error Bytes :=
  match load_group S st gid with
  | .error err => (st, .error err)
  | .ok group =>
  match e.deserializeMsgIn ciphertext_bytes with
  | .error m => (st, .error (.codecError m))
  | .ok mls_message =>
  match e.parseMessage group mls_message with
  | .error m => (st, .error (.openMlsError m))
  | .ok (group, unverified_message) =>
  match e.processUnverified group unverified_message with
  | .error m => (st, .error (.openMlsError m))
  | .ok (group, content) =>
  match S.writeGroupState st group.gid group with
  | .error m => (st, .error (.storageError m))
  | .ok st' =>
  match content with
  | .applicationMessage app_msg => (st', .ok app_msg)
  | .proposalMessage =>
    (st', .error (.invalidMessageType "Received proposal, expected application message"))
  | .exhumerMessage => (st', .error (.invalidMessageType "Received exhumer message"))
  | .stagedCommitMessage =>
    (st', .error (.invalidMessageType "Received commit, expected application message"))

/-- `MLSGroup::process_commit` (lines 300-319): load, deserialize, parse,
process (the classified content is discarded), save, return unit. -/
def process_commit {σ : Type} (S : StorageOps σ) (e : Engine) (st : σ) (gid : Bytes)
    (commit_bytes : Bytes) : σ × Except Error Unit :=
  match load_group S st gid with
  | .error err => (st, .error err)
  | .ok group =>
  match e.deserializeMsgIn commit_bytes with
  | .error m => (st, .error (.codecError m))
  | .ok mls_message =>
  match e.parseMessage group mls_message with
  | .error m => (st, .error (.openMlsError m))
  | .ok (group, unverified_message) =>
  match e.processUnverified group unverified_message with
  | .error m => (st, .error (.openMlsError m))
  | .ok (group, _content) =>
  match S.writeGroupState st group.gid group with
  | .error m => (st, .error (.storageError m))
  | .ok st' => (st', .ok ())

/-- `MLSGroup::get_current_epoch` (lines 321-326): load the group read-only
and return its epoch counter. -/
def get_current_epoch {σ : Type} (S : StorageOps σ) (st : σ) (gid : Bytes) :
    σ × Except Error Nat :=
  match load_group S st gid with
  | .error err => (st, .error err)
  | .ok group => (st, .ok group.epoch)

end MLSGroup

namespace MLSClient

/-- `MLSClient::create_group` (lines 51-79): ask the engine to construct a
new group bound to this identity's credential under `group_id`, save it,
and return a session handle referencing only `group_id`. -/
def create_group {σ : Type} (S : StorageOps σ) (e : Engine) (st : σ)
    (identity : Bytes) (group_id : Bytes) : σ × Except Error Bytes :=
  match e.newGroup group_id identity with
  | .error m => (st, .error (.openMlsError m))
  | .ok group =>
  match S.writeGroupState st group.gid group with
  | .error m => (st, .error (.storageError m))
  | .ok st' => (st', .ok group_id)

/-- `MLSClient::export_key_package` (lines 119-146): build a key package
credentialed by this identity, compute its hash reference, persist it under
that reference, and only then serialize and return the key package bytes. -/
def export_key_package {σ : Type} (S : StorageOps σ) (e : Engine) (st : σ)
    (identity : Bytes) : σ × Except Error Bytes :=
  match e.buildKeyPackage identity with
  | .error m => (st, .error (.openMlsError m))
  | .ok key_package =>
  match e.hashRef key_package with
  | .error m => (st, .error (.cryptoError m))
  | .ok hash_ref =>
  match S.writeKeyPackage st hash_ref key_package with
  | .error m => (st, .error (.storageError m))
  | .ok st' =>
  match e.serializeKeyPackage key_package with
  | .error m => (st', .error (.codecError m))
  | .ok bytes => (st', .ok bytes)

end MLSClient

/-- The stored epoch observable under a group id, when a record exists. -/
def epochAt (st : MemStore) (gid : Bytes) : Option Nat :=
  (assocGet st.groupStates gid).map EngineState.epoch

/-- Modelled from the spec: the protocol engine (the external `openmls`
collaborator, out of scope for this repository) constructs a new group "at
epoch 0 bound to this identity's credential" under the requested group id
(`new_with_group_id`). -/
def Engine.NewGroupSpec (e : Engine) : Prop :=
  ∀ gid cred s, e.newGroup gid cred = .ok s → s.gid = gid ∧ s.epoch = 0

/-- Modelled from the spec: "a group identifier, once bound to a
GroupSession, never changes" — every engine transition on a group state
preserves its group id. -/
def Engine.PreservesGid (e : Engine) : Prop :=
  (∀ s kp r, e.addMembers s kp = .ok r → r.1.gid = s.gid) ∧
  (∀ s i r, e.removeMembers s i = .ok r → r.1.gid = s.gid) ∧
  (∀ s pt r, e.createMessage s pt = .ok r → r.1.gid = s.gid) ∧
  (∀ s m r, e.parseMessage s m = .ok r → r.1.gid = s.gid) ∧
  (∀ s u r, e.processUnverified s u = .ok r → r.1.gid = s.gid)

/-- Modelled from the spec: "Epoch is a monotonically non-decreasing
counter" and "Commit: a message that advances a group's epoch" — no engine
transition ever decreases the epoch of a group state. -/
def Engine.EpochMonotone (e : Engine) : Prop :=
  (∀ s kp r, e.addMembers s kp = .ok r → s.epoch ≤ r.1.epoch) ∧
  (∀ s i r, e.removeMembers s i = .ok r → s.epoch ≤ r.1.epoch) ∧
  (∀ s pt r, e.createMessage s pt = .ok r → s.epoch ≤ r.1.epoch) ∧
  (∀ s m r, e.parseMessage s m = .ok r → s.epoch ≤ r.1.epoch) ∧
  (∀ s u r, e.processUnverified s u = .ok r → s.epoch ≤ r.1.epoch)

/-- Modelled from the spec: "`decrypt()` given a decoded proposal or commit
message ... does not mutate the stored epoch" — the engine's incoming-message
parse/process steps classify a message without advancing the epoch (a staged
commit advances the epoch only when merged). -/
def Engine.ProcessPreservesEpoch (e : Engine) : Prop :=
  (∀ s m r, e.parseMessage s m = .ok r → r.1.epoch = s.epoch) ∧
  (∀ s u r, e.processUnverified s u = .ok r → r.1.epoch = s.epoch)

/-- A small concrete engine used to exercise the adapter on closed inputs:
adds append a member and bump the epoch, removals filter the leaf and bump
the epoch, encryption records the plaintext in the opaque blob, processing
classifies the message `[0]` as an application message and everything else
as a proposal, and serialization is the identity. -/
def testEngine : Engine where
  newGroup gid cred := .ok ⟨gid, 0, [⟨0, .basic cred⟩], []⟩
  addMembers s kp :=
    .ok ({ s with epoch := s.epoch + 1,
                  members := s.members ++ [⟨s.members.length, .basic kp⟩] }, [1], some [2])
  removeMembers s i :=
    .ok ({ s with epoch := s.epoch + 1,
                  members := s.members.filter (fun m => m.index != i) }, [3], none)
  createMessage s pt := .ok ({ s with blob := pt }, pt)
  deserializeMsgIn b := .ok b
  parseMessage s m := .ok (s, m)
  processUnverified s u :=
    .ok ({ s with blob := u },
         if u = [0] then .applicationMessage u else .proposalMessage)
  deserializeKeyPackage b := .ok b
  buildKeyPackage cred := .ok cred
  hashRef kp := .ok (0 :: kp)
  serializeKeyPackage kp := .ok kp
  tlsSerialize b := .ok b

/-- A storage instance whose writes always fail, exercising the fallible
side of the storage contract. -/
def failingStore : StorageOps Unit where
  readGroupState _ _ := .ok none
  writeGroupState _ _ _ := .error "write refused"
  readKeyPackage _ _ := .ok none
  writeKeyPackage _ _ _ := .error "write refused"

/-- Concrete fixtures: group id `[5,6,7,8]` (the spec's §8 scenario),
a second id, a single founding member "user1", and a one-group store. -/
def gidA : Bytes := [5, 6, 7, 8]

def gidB : Bytes := [9, 9]

def memUser1 : Member := ⟨0, .basic [117, 115, 101, 114, 49]⟩

def stateA : EngineState := ⟨gidA, 0, [memUser1], []⟩

def store1 : MemStore := ⟨[(gidA, stateA)], []⟩

/-- A second member credentialed "user2" style payload, and fixtures for the
frame and non-basic-credential scenarios: a second group under `gidB` and a
group containing only a member with a non-basic credential whose payload
spells "ghost". -/
def stateB : EngineState := ⟨gidB, 2, [⟨0, .basic [117, 115, 101, 114, 50]⟩], []⟩

def store12 : MemStore := ⟨[(gidA, stateA), (gidB, stateB)], []⟩

def memGhost : Member := ⟨0, .nonBasic [103, 104, 111, 115, 116]⟩

def stateN : EngineState := ⟨gidB, 3, [memGhost], []⟩

def storeN : MemStore := ⟨[(gidB, stateN)], []⟩

/-- Lookup after insert-or-overwrite: the written key reads back the new
value, any other key is unaffected. -/
theorem assocGet_assocPut {α : Type} (l : List (Bytes × α)) (k k' : Bytes) (v : α) :
    assocGet (assocPut l k v) k' = if k = k' then some v else assocGet l k' := by
  induction l with
  | nil => simp [assocGet, assocPut]
  | cons hd tl ih =>
    obtain ⟨k₀, v₀⟩ := hd
    by_cases h₀ : k₀ = k
    · subst h₀
      by_cases h₁ : k₀ = k'
      · subst h₁; simp [assocGet, assocPut]
      · simp [assocGet, assocPut, h₁]
    · by_cases h₁ : k₀ = k'
      · subst h₁
        have : ¬ k = k₀ := fun h => h₀ h.symm
        simp [assocGet, assocPut, h₀, this]
      · simp [assocGet, assocPut, h₀, h₁, ih]

/-- Characterization of `load_group` over the concrete in-memory store. -/
theorem load_group_mem (st : MemStore) (gid : Bytes) :
    MLSGroup.load_group memStorageOps st gid =
      match assocGet st.groupStates gid with
      | none => .error (.invalidState "Group not found in storage")
      | some g => .ok g := by
  simp only [MLSGroup.load_group, memStorageOps]
  cases assocGet st.groupStates gid <;> rfl

theorem testEngine_newGroupSpec : testEngine.NewGroupSpec := by
  intro gid cred s h
  simp only [testEngine] at h
  cases h
  exact ⟨rfl, rfl⟩

theorem testEngine_preservesGid : testEngine.PreservesGid := by
  refine ⟨?_, ?_, ?_, ?_, ?_⟩ <;> intro s x r h <;> simp only [testEngine] at h <;>
    cases h <;> rfl

theorem testEngine_epochMonotone : testEngine.EpochMonotone := by
  refine ⟨?_, ?_, ?_, ?_, ?_⟩ <;> intro s x r h <;> simp only [testEngine] at h <;>
    cases h <;> simp

theorem testEngine_processPreservesEpoch : testEngine.ProcessPreservesEpoch := by
  refine ⟨?_, ?_⟩ <;> intro s x r h <;> simp only [testEngine] at h <;> cases h <;> rfl

/-- Projection of the in-memory store's group-state write. -/
theorem memStorageOps_writeGroupState (st : MemStore) (k : Bytes) (v : EngineState) :
    memStorageOps.writeGroupState st k v =
      .ok { st with groupStates := assocPut st.groupStates k v } := rfl

/-- Storage effect of `add_member` over the in-memory store: either the
store is returned unchanged, or the engine produced an updated group state
that was written back under its own group id. -/
theorem add_member_effect (e : Engine) (st : MemStore) (gid kpb : Bytes) :
    (MLSGroup.add_member memStorageOps e st gid kpb).1 = st ∨
    ∃ s kp s' msg w,
      assocGet st.groupStates gid = some s ∧
      e.deserializeKeyPackage kpb = .ok kp ∧
      e.addMembers s kp = .ok (s', msg, w) ∧
      (MLSGroup.add_member memStorageOps e st gid kpb).1 =
        { st with groupStates := assocPut st.groupStates s'.gid s' } := by
  cases hs : assocGet st.groupStates gid with
  | none => left; simp [MLSGroup.add_member, load_group_mem, hs]
  | some s =>
    cases hdes : e.deserializeKeyPackage kpb with
    | error m => left; simp [MLSGroup.add_member, load_group_mem, hs, hdes]
    | ok kp =>
      cases hadd : e.addMembers s kp with
      | error m => left; simp [MLSGroup.add_member, load_group_mem, hs, hdes, hadd]
      | ok r =>
        obtain ⟨s', msg, w⟩ := r
        right
        refine ⟨s, kp, s', msg, w, rfl, rfl, hadd, ?_⟩
        cases htls : e.tlsSerialize msg with
        | error m =>
          simp [MLSGroup.add_member, load_group_mem, hs, hdes, hadd, htls, memStorageOps_writeGroupState]
        | ok cb =>
          cases w with
          | none =>
            simp [MLSGroup.add_member, load_group_mem, hs, hdes, hadd, htls, memStorageOps_writeGroupState]
          | some welcome =>
            cases htlw : e.tlsSerialize welcome <;>
              simp [MLSGroup.add_member, load_group_mem, hs, hdes, hadd, htls, htlw,
                memStorageOps_writeGroupState]

/-- Storage effect of `remove_member` over the in-memory store. -/
theorem remove_member_effect (e : Engine) (st : MemStore) (gid : Bytes) (mid : String) :
    (MLSGroup.remove_member memStorageOps e st gid mid).1 = st ∨
    ∃ s m s' msg w,
      assocGet st.groupStates gid = some s ∧
      s.members.find? (MLSGroup.matchesMemberId mid) = some m ∧
      e.removeMembers s m.index = .ok (s', msg, w) ∧
      (MLSGroup.remove_member memStorageOps e st gid mid).1 =
        { st with groupStates := assocPut st.groupStates s'.gid s' } := by
  cases hs : assocGet st.groupStates gid with
  | none => left; simp [MLSGroup.remove_member, load_group_mem, hs]
  | some s =>
    cases hfind : s.members.find? (MLSGroup.matchesMemberId mid) with
    | none => left; simp [MLSGroup.remove_member, load_group_mem, hs, hfind]
    | some m =>
      cases hrem : e.removeMembers s m.index with
      | error msg => left; simp [MLSGroup.remove_member, load_group_mem, hs, hfind, hrem]
      | ok r =>
        obtain ⟨s', msg, w⟩ := r
        right
        refine ⟨s, m, s', msg, w, rfl, hfind, hrem, ?_⟩
        cases htls : e.tlsSerialize msg with
        | error m2 =>
          simp [MLSGroup.remove_member, load_group_mem, hs, hfind, hrem, htls, memStorageOps_writeGroupState]
        | ok cb =>
          cases w with
          | none =>
            simp [MLSGroup.remove_member, load_group_mem, hs, hfind, hrem, htls, memStorageOps_writeGroupState]
          | some welcome =>
            cases htlw : e.tlsSerialize welcome <;>
              simp [MLSGroup.remove_member, load_group_mem, hs, hfind, hrem, htls, htlw,
                memStorageOps_writeGroupState]

/-- Storage effect of `decrypt_message` over the in-memory store. -/
theorem decrypt_message_effect (e : Engine) (st : MemStore) (gid cb : Bytes) :
    (MLSGroup.decrypt_message memStorageOps e st gid cb).1 = st ∨
    ∃ s msg s1 uv s2 content,
      assocGet st.groupStates gid = some s ∧
      e.deserializeMsgIn cb = .ok msg ∧
      e.parseMessage s msg = .ok (s1, uv) ∧
      e.processUnverified s1 uv = .ok (s2, content) ∧
      (MLSGroup.decrypt_message memStorageOps e st gid cb).1 =
        { st with groupStates := assocPut st.groupStates s2.gid s2 } := by
  cases hs : assocGet st.groupStates gid with
  | none => left; simp [MLSGroup.decrypt_message, load_group_mem, hs]
  | some s =>
    cases hdes : e.deserializeMsgIn cb with
    | error m => left; simp [MLSGroup.decrypt_message, load_group_mem, hs, hdes]
    | ok msg =>
      cases hparse : e.parseMessage s msg with
      | error m => left; simp [MLSGroup.decrypt_message, load_group_mem, hs, hdes, hparse]
      | ok r1 =>
        obtain ⟨s1, uv⟩ := r1
        cases hproc : e.processUnverified s1 uv with
        | error m =>
          left; simp [MLSGroup.decrypt_message, load_group_mem, hs, hdes, hparse, hproc]
        | ok r2 =>
          obtain ⟨s2, content⟩ := r2
          right
          refine ⟨s, msg, s1, uv, s2, content, rfl, rfl, hparse, hproc, ?_⟩
          cases content <;>
            simp [MLSGroup.decrypt_message, load_group_mem, hs, hdes, hparse, hproc,
              memStorageOps_writeGroupState]

/-- Storage effect of `process_commit` over the in-memory store. -/
theorem process_commit_effect (e : Engine) (st : MemStore) (gid cb : Bytes) :
    (MLSGroup.process_commit memStorageOps e st gid cb).1 = st ∨
    ∃ s msg s1 uv s2 content,
      assocGet st.groupStates gid = some s ∧
      e.deserializeMsgIn cb = .ok msg ∧
      e.parseMessage s msg = .ok (s1, uv) ∧
      e.processUnverified s1 uv = .ok (s2, content) ∧
      (MLSGroup.process_commit memStorageOps e st gid cb).1 =
        { st with groupStates := assocPut st.groupStates s2.gid s2 } := by
  cases hs : assocGet st.groupStates gid with
  | none => left; simp [MLSGroup.process_commit, load_group_mem, hs]
  | some s =>
    cases hdes : e.deserializeMsgIn cb with
    | error m => left; simp [MLSGroup.process_commit, load_group_mem, hs, hdes]
    | ok msg =>
      cases hparse : e.parseMessage s msg with
      | error m => left; simp [MLSGroup.process_commit, load_group_mem, hs, hdes, hparse]
      | ok r1 =>
        obtain ⟨s1, uv⟩ := r1
        cases hproc : e.processUnverified s1 uv with
        | error m =>
          left; simp [MLSGroup.process_commit, load_group_mem, hs, hdes, hparse, hproc]
        | ok r2 =>
          obtain ⟨s2, content⟩ := r2
          right
          refine ⟨s, msg, s1, uv, s2, content, rfl, rfl, hparse, hproc, ?_⟩
          simp [MLSGroup.process_commit, load_group_mem, hs, hdes, hparse, hproc,
            memStorageOps_writeGroupState]

/-- `encrypt_message` never writes to storage, over any storage instance:
its source contains no save call. -/
theorem encrypt_message_fst {σ : Type} (S : StorageOps σ) (e : Engine) (st : σ)
    (gid pt : Bytes) : (MLSGroup.encrypt_message S e st gid pt).1 = st := by
  unfold MLSGroup.encrypt_message
  cases hl : MLSGroup.load_group S st gid with
  | error err => rfl
  | ok g =>
    cases hc : e.createMessage g pt with
    | error m => simp [hc]
    | ok r =>
      obtain ⟨g', mo⟩ := r
      cases ht : e.tlsSerialize mo <;> simp [hc, ht]

/-- `get_current_epoch` never writes to storage. -/
theorem get_current_epoch_fst {σ : Type} (S : StorageOps σ) (st : σ) (gid : Bytes) :
    (MLSGroup.get_current_epoch S st gid).1 = st := by
  unfold MLSGroup.get_current_epoch
  cases MLSGroup.load_group S st gid <;> rfl

/-- Projection of the in-memory store's key-package write. -/
theorem memStorageOps_writeKeyPackage (st : MemStore) (k : Bytes) (v : KeyPackage) :
    memStorageOps.writeKeyPackage st k v =
      .ok { st with keyPackages := assocPut st.keyPackages k v } := rfl

/-- Shared lemma: when the member scan finds no match, `remove_member`
fails with `MemberNotFound` carrying the identifier and leaves the storage
value untouched; no commit is requested from the engine. -/
theorem remove_member_no_match {σ : Type} (S : StorageOps σ) (e : Engine) (st : σ)
    (gid : Bytes) (mid : String) (s : EngineState)
    (hload : MLSGroup.load_group S st gid = .ok s)
    (hnone : s.members.find? (MLSGroup.matchesMemberId mid) = none) :
    MLSGroup.remove_member S e st gid mid = (st, .error (.memberNotFound mid)) := by
  unfold MLSGroup.remove_member
  simp [hload, hnone]

/-- C5: every GroupSession operation (addMember, removeMember, encrypt,
decrypt, processCommit, getCurrentEpoch) on a group id with no stored group
state fails with `InvalidState`, leaving storage unchanged, for every
engine — no engine transition is requested. -/
theorem C5_absent_group_invalid_state (e : Engine) (st : MemStore)
    (gid kpb pt cb mb : Bytes) (mid : String)
    (h : assocGet st.groupStates gid = none) :
    MLSGroup.add_member memStorageOps e st gid kpb =
      (st, .error (.invalidState "Group not found in storage")) ∧
    MLSGroup.remove_member memStorageOps e st gid mid =
      (st, .error (.invalidState "Group not found in storage")) ∧
    MLSGroup.encrypt_message memStorageOps e st gid pt =
      (st, .error (.invalidState "Group not found in storage")) ∧
    MLSGroup.decrypt_message memStorageOps e st gid cb =
      (st, .error (.invalidState "Group not found in storage")) ∧
    MLSGroup.process_commit memStorageOps e st gid mb =
      (st, .error (.invalidState "Group not found in storage")) ∧
    MLSGroup.get_current_epoch memStorageOps st gid =
      (st, .error (.invalidState "Group not found in storage")) := by
  refine ⟨?_, ?_, ?_, ?_, ?_, ?_⟩ <;>
    simp [MLSGroup.add_member, MLSGroup.remove_member, MLSGroup.encrypt_message,
      MLSGroup.decrypt_message, MLSGroup.process_commit, MLSGroup.get_current_epoch,
      load_group_mem, h]

/-- Witness for C5: on an empty store, every operation against `gidA`
reports InvalidState. -/
theorem C5_witness :
    assocGet (MemStore.mk [] []).groupStates gidA = none ∧
    (MLSGroup.add_member memStorageOps testEngine ⟨[], []⟩ gidA [1] =
      (⟨[], []⟩, .error (.invalidState "Group not found in storage")) ∧
    MLSGroup.remove_member memStorageOps testEngine ⟨[], []⟩ gidA "user1" =
      (⟨[], []⟩, .error (.invalidState "Group not found in storage")) ∧
    MLSGroup.encrypt_message memStorageOps testEngine ⟨[], []⟩ gidA [2] =
      (⟨[], []⟩, .error (.invalidState "Group not found in storage")) ∧
    MLSGroup.decrypt_message memStorageOps testEngine ⟨[], []⟩ gidA [3] =
      (⟨[], []⟩, .error (.invalidState "Group not found in storage")) ∧
    MLSGroup.process_commit memStorageOps testEngine ⟨[], []⟩ gidA [4] =
      (⟨[], []⟩, .error (.invalidState "Group not found in storage")) ∧
    MLSGroup.get_current_epoch memStorageOps ⟨[], []⟩ gidA =
      (⟨[], []⟩, .error (.invalidState "Group not found in storage"))) :=
  ⟨by decide,
   C5_absent_group_invalid_state testEngine ⟨[], []⟩ gidA [1] [2] [3] [4] "user1" (by decide)⟩

/-- C4: a member identifier matching no credential in the group's member
set (the scan predicate rejects every member; non-basic credentials are
rejected unconditionally) makes `removeMember` fail with `MemberNotFound`
carrying the identifier, with the stored state unchanged and no commit
produced. -/
theorem C4_remove_member_not_found (e : Engine) (st : MemStore) (gid : Bytes)
    (mid : String) (s : EngineState)
    (hs : assocGet st.groupStates gid = some s)
    (hnomatch : ∀ m ∈ s.members, MLSGroup.matchesMemberId mid m = false) :
    MLSGroup.remove_member memStorageOps e st gid mid =
      (st, .error (.memberNotFound mid)) := by
  apply remove_member_no_match memStorageOps e st gid mid s
  · rw [load_group_mem, hs]
  · rw [List.find?_eq_none]
    intro m hm
    simp [hnomatch m hm]

/-- Witness for C4: removing "ghost" from the group whose only member is
the basic credential "user1" reports MemberNotFound and leaves the store
unchanged. -/
theorem C4_witness :
    (∀ m ∈ stateA.members, MLSGroup.matchesMemberId "ghost" m = false) ∧
    MLSGroup.remove_member memStorageOps testEngine store1 gidA "ghost" =
      (store1, .error (.memberNotFound "ghost")) :=
  ⟨by decide,
   C4_remove_member_not_found testEngine store1 gidA "ghost" stateA (by decide) (by decide)⟩

/-- C10: `remove_member` resolves the identifier only against basic
credentials, comparing it with the lossy UTF-8 decoding of the credential
bytes: a member whose credential is not basic is never matched by the scan
predicate, and a group whose basic credentials all decode to something
other than the identifier yields `MemberNotFound`, even when a non-basic
member (whatever its payload) is present. -/
theorem C10_nonbasic_never_matched (e : Engine) (st : MemStore) (gid : Bytes)
    (mid : String) (s : EngineState)
    (hs : assocGet st.groupStates gid = some s)
    (hbasic : ∀ m ∈ s.members, ∀ d, m.credential = Credential.basic d → utf8Lossy d ≠ mid) :
    (∀ m : Member, (∀ d, m.credential ≠ Credential.basic d) →
      MLSGroup.matchesMemberId mid m = false) ∧
    MLSGroup.remove_member memStorageOps e st gid mid =
      (st, .error (.memberNotFound mid)) := by
  constructor
  · intro m hm
    unfold MLSGroup.matchesMemberId
    cases hc : m.credential with
    | basic d => exact absurd hc (hm d)
    | nonBasic d => rfl
  · apply remove_member_no_match memStorageOps e st gid mid s
    · rw [load_group_mem, hs]
    · rw [List.find?_eq_none]
      intro m hm
      unfold MLSGroup.matchesMemberId
      cases hc : m.credential with
      | basic d => simp [hbasic m hm d hc]
      | nonBasic d => simp

/-- Witness for C10: the group under `gidB` holds one member whose
non-basic credential payload spells "ghost"; `removeMember "ghost"` still
reports MemberNotFound. -/
theorem C10_witness :
    (∀ m : Member, (∀ d, m.credential ≠ Credential.basic d) →
      MLSGroup.matchesMemberId "ghost" m = false) ∧
    MLSGroup.remove_member memStorageOps testEngine storeN gidB "ghost" =
      (storeN, .error (.memberNotFound "ghost")) :=
  C10_nonbasic_never_matched testEngine storeN gidB "ghost" stateN (by decide)
    (by
      intro m hm d hd
      simp only [stateN, memGhost, List.mem_singleton] at hm
      subst hm
      exact absurd hd (by simp))

/-- C8: after a successful `createGroup(groupId)`, the session handle is
bound to `groupId` and `getCurrentEpoch` on the resulting store returns 0,
for any engine constructing new groups at epoch 0 under the requested id. -/
theorem C8_create_group_epoch_zero (e : Engine) (hnew : e.NewGroupSpec)
    (st st' : MemStore) (identity group_id r : Bytes)
    (h : MLSClient.create_group memStorageOps e st identity group_id = (st', .ok r)) :
    r = group_id ∧
    MLSGroup.get_current_epoch memStorageOps st' group_id = (st', .ok 0) := by
  unfold MLSClient.create_group at h
  cases hng : e.newGroup group_id identity with
  | error m => rw [hng] at h; simp at h
  | ok s =>
    rw [hng] at h
    simp only [memStorageOps_writeGroupState, Prod.mk.injEq, Except.ok.injEq] at h
    obtain ⟨hgid, hep⟩ := hnew group_id identity s hng
    obtain ⟨hst, hr⟩ := h
    refine ⟨hr.symm, ?_⟩
    subst hst
    unfold MLSGroup.get_current_epoch
    rw [load_group_mem]
    simp [assocGet_assocPut, hgid, hep]

/-- Witness for C8: creating group `gidA` from an empty store with the test
engine, then reading the epoch, yields 0. -/
theorem C8_witness :
    MLSClient.create_group memStorageOps testEngine ⟨[], []⟩ [117] gidA =
      (⟨[(gidA, ⟨gidA, 0, [⟨0, .basic [117]⟩], []⟩)], []⟩, .ok gidA) ∧
    (gidA = gidA ∧
      MLSGroup.get_current_epoch memStorageOps
        ⟨[(gidA, ⟨gidA, 0, [⟨0, .basic [117]⟩], []⟩)], []⟩ gidA =
      (⟨[(gidA, ⟨gidA, 0, [⟨0, .basic [117]⟩], []⟩)], []⟩, .ok 0)) :=
  ⟨by decide,
   C8_create_group_epoch_zero testEngine testEngine_newGroupSpec ⟨[], []⟩ _ [117] gidA gidA
     (by decide)⟩

/-- C6: whenever `exportKeyPackage` returns serialized bytes, the built key
package is already persisted under its hash reference in the resulting
store; and when the key-package write fails, the call returns a
`StorageError` with no bytes and the store untouched. -/
theorem C6_export_key_package_persist :
    (∀ (e : Engine) (st st' : MemStore) (identity bytes : Bytes),
      MLSClient.export_key_package memStorageOps e st identity = (st', .ok bytes) →
      ∃ kp href, e.buildKeyPackage identity = .ok kp ∧ e.hashRef kp = .ok href ∧
        assocGet st'.keyPackages href = some kp ∧
        e.serializeKeyPackage kp = .ok bytes) ∧
    (∀ (σ : Type) (S : StorageOps σ) (e : Engine) (st : σ)
      (identity kp href : Bytes) (m : String),
      e.buildKeyPackage identity = .ok kp → e.hashRef kp = .ok href →
      S.writeKeyPackage st href kp = .error m →
      MLSClient.export_key_package S e st identity = (st, .error (.storageError m))) := by
  constructor
  · intro e st st' identity bytes h
    unfold MLSClient.export_key_package at h
    cases hb : e.buildKeyPackage identity with
    | error m => rw [hb] at h; simp at h
    | ok kp =>
      rw [hb] at h
      cases hh : e.hashRef kp with
      | error m => simp [hh] at h
      | ok href =>
        cases hser : e.serializeKeyPackage kp with
        | error m => simp [hh, memStorageOps_writeKeyPackage, hser] at h
        | ok b =>
          simp only [hh, memStorageOps_writeKeyPackage, hser, Prod.mk.injEq,
            Except.ok.injEq] at h
          obtain ⟨hst, hb'⟩ := h
          refine ⟨kp, href, rfl, hh, ?_, hser.trans (by rw [hb'])⟩
          rw [← hst]
          simp [assocGet_assocPut]
  · intro σ S e st identity kp href m hb hh hw
    unfold MLSClient.export_key_package
    rw [hb]
    simp only [hh, hw]

/-- Witness for C6: the test engine on an empty store persists the key
package under its hash reference before returning its bytes; the failing
store turns the same call into a StorageError. -/
theorem C6_witness :
    (∃ kp href, testEngine.buildKeyPackage [117] = .ok kp ∧
      testEngine.hashRef kp = .ok href ∧
      assocGet (MemStore.mk [] [([0, 117], [117])]).keyPackages href = some kp ∧
      testEngine.serializeKeyPackage kp = .ok [117]) ∧
    MLSClient.export_key_package failingStore testEngine () [117] =
      ((), .error (.storageError "write refused")) :=
  ⟨C6_export_key_package_persist.1 testEngine ⟨[], []⟩ ⟨[], [([0, 117], [117])]⟩ [117] [117]
     (by decide),
   C6_export_key_package_persist.2 Unit failingStore testEngine () [117] [117] [0, 117]
     "write refused" rfl rfl rfl⟩

/-- C7: a key package that deserializes and is accepted by the engine's
commit-with-add (yielding a welcome for the admitted member, and with the
commit and welcome serializing) makes `addMember` succeed with a Commit
whose welcome list has exactly one entry. -/
theorem C7_add_member_one_welcome (e : Engine) (st : MemStore) (gid kpb : Bytes)
    (s : EngineState) (kp : KeyPackage) (s' : EngineState) (msg w cb wb : Bytes)
    (hs : assocGet st.groupStates gid = some s)
    (hdes : e.deserializeKeyPackage kpb = .ok kp)
    (hadd : e.addMembers s kp = .ok (s', msg, some w))
    (hser : e.tlsSerialize msg = .ok cb)
    (hserw : e.tlsSerialize w = .ok wb) :
    MLSGroup.add_member memStorageOps e st gid kpb =
      ({ st with groupStates := assocPut st.groupStates s'.gid s' },
        .ok { commit := cb, welcome := [wb] }) ∧
    List.length [wb] = 1 := by
  refine ⟨?_, rfl⟩
  unfold MLSGroup.add_member
  simp [load_group_mem, hs, hdes, hadd, hser, hserw, memStorageOps_writeGroupState]

/-- Witness for C7: adding the key package `[118]` to the one-member group
under `gidA` yields a commit with exactly one welcome entry. -/
theorem C7_witness :
    MLSGroup.add_member memStorageOps testEngine store1 gidA [118] =
      (⟨[(gidA, ⟨gidA, 1, [memUser1, ⟨1, .basic [118]⟩], []⟩)], []⟩,
        .ok { commit := [1], welcome := [[2]] }) ∧
    List.length [[2]] = 1 := by
  have h := C7_add_member_one_welcome testEngine store1 gidA [118] stateA [118]
    ⟨gidA, 1, [memUser1, ⟨1, .basic [118]⟩], []⟩ [1] [2] [1] [2]
    (by decide) rfl rfl rfl rfl
  exact ⟨by rw [h.1]; decide, h.2⟩

/-- C1: `encrypt_message` returns the epoch-stamped ciphertext but never
writes to storage — the storage value out equals the storage value in for
every engine and input, although the engine's encryption step may have
changed the in-memory group state (shown on a concrete run where the
ratchet-advanced state differs from the loaded one and the store is
returned unchanged). -/
theorem C1_encrypt_no_persist :
    (∀ (e : Engine) (st : MemStore) (gid pt : Bytes),
      (MLSGroup.encrypt_message memStorageOps e st gid pt).1 = st) ∧
    (MLSGroup.encrypt_message memStorageOps testEngine store1 gidA [42] =
      (store1, .ok { data := [42], epoch := 0 }) ∧
     testEngine.createMessage stateA [42] = .ok ({ stateA with blob := [42] }, [42]) ∧
     ({ stateA with blob := [42] } : EngineState) ≠ stateA) :=
  ⟨fun e st gid pt => encrypt_message_fst memStorageOps e st gid pt, by decide⟩

/-- C2 counterexample: decrypting a message classified as a proposal fails
with InvalidMessageType, but the stored group state under the group id has
changed — the state produced by the engine's processing step was persisted
before the classification was examined. -/
theorem C2_counterexample :
    MLSGroup.decrypt_message memStorageOps testEngine store1 gidA [5] =
      (⟨[(gidA, { stateA with blob := [5] })], []⟩,
       .error (.invalidMessageType "Received proposal, expected application message")) ∧
    (⟨[(gidA, { stateA with blob := [5] })], []⟩ : MemStore) ≠ store1 := by decide

/-- C2 (amended): when the incoming message decodes, parses and processes
to a proposal or commit classification, `decrypt_message` fails with
`InvalidMessageType`; the processed state is persisted (so the stored blob
may change), but the stored epoch under the group id is unchanged whenever
the engine's parse/process steps preserve the epoch. -/
theorem C2_decrypt_nonapplication (e : Engine) (hpp : e.ProcessPreservesEpoch)
    (st : MemStore) (gid cb : Bytes) (s : EngineState) (msg : Bytes)
    (s1 : EngineState) (uv : Bytes) (s2 : EngineState)
    (content : ProcessedMessageContent)
    (hs : assocGet st.groupStates gid = some s)
    (hdes : e.deserializeMsgIn cb = .ok msg)
    (hparse : e.parseMessage s msg = .ok (s1, uv))
    (hproc : e.processUnverified s1 uv = .ok (s2, content))
    (hcontent : content = .proposalMessage ∨ content = .stagedCommitMessage) :
    (∃ em, MLSGroup.decrypt_message memStorageOps e st gid cb =
      ({ st with groupStates := assocPut st.groupStates s2.gid s2 },
       .error (.invalidMessageType em))) ∧
    epochAt (MLSGroup.decrypt_message memStorageOps e st gid cb).1 gid =
      epochAt st gid := by
  obtain ⟨hppParse, hppProc⟩ := hpp
  have h1 := hppParse s msg (s1, uv) hparse
  have h2 := hppProc s1 uv (s2, content) hproc
  have hep2 : s2.epoch = s.epoch := by simp at h1 h2; omega
  have hepoch : epochAt { st with groupStates := assocPut st.groupStates s2.gid s2 } gid =
      epochAt st gid := by
    unfold epochAt
    show (assocGet (assocPut st.groupStates s2.gid s2) gid).map EngineState.epoch = _
    rw [assocGet_assocPut]
    by_cases hg : s2.gid = gid
    · simp [hg, hs, hep2]
    · simp [hg]
  rcases hcontent with hc | hc <;> subst hc
  · have hdec : MLSGroup.decrypt_message memStorageOps e st gid cb =
        ({ st with groupStates := assocPut st.groupStates s2.gid s2 },
         .error (.invalidMessageType "Received proposal, expected application message")) := by
      unfold MLSGroup.decrypt_message
      simp [load_group_mem, hs, hdes, hparse, hproc, memStorageOps_writeGroupState]
    exact ⟨⟨_, hdec⟩, by rw [hdec]; exact hepoch⟩
  · have hdec : MLSGroup.decrypt_message memStorageOps e st gid cb =
        ({ st with groupStates := assocPut st.groupStates s2.gid s2 },
         .error (.invalidMessageType "Received commit, expected application message")) := by
      unfold MLSGroup.decrypt_message
      simp [load_group_mem, hs, hdes, hparse, hproc, memStorageOps_writeGroupState]
    exact ⟨⟨_, hdec⟩, by rw [hdec]; exact hepoch⟩

/-- Witness for the amended C2: the proposal-classified message `[5]` fails
with InvalidMessageType and the stored epoch under `gidA` is unchanged. -/
theorem C2_witness :
    (∃ em, MLSGroup.decrypt_message memStorageOps testEngine store1 gidA [5] =
      ({ store1 with groupStates := (assocPut store1.groupStates
          ({ stateA with blob := [5] } : EngineState).gid { stateA with blob := [5] }) },
       .error (.invalidMessageType em))) ∧
    epochAt (MLSGroup.decrypt_message memStorageOps testEngine store1 gidA [5]).1 gidA =
      epochAt store1 gidA :=
  C2_decrypt_nonapplication testEngine testEngine_processPreservesEpoch store1 gidA [5]
    stateA [5] stateA [5] { stateA with blob := [5] } .proposalMessage
    (by decide) rfl rfl rfl (Or.inl rfl)

/-- Shared lemma: writing back an engine state with an epoch at least the
loaded one never decreases the epoch observable under the group id. -/
theorem epochAt_put_ge (st : MemStore) (gid : Bytes) (s s' : EngineState)
    (hs : assocGet st.groupStates gid = some s) (hle : s.epoch ≤ s'.epoch) :
    ∀ a b, epochAt st gid = some a →
      epochAt { st with groupStates := assocPut st.groupStates s'.gid s' } gid = some b →
      a ≤ b := by
  intro a b ha hb
  unfold epochAt at ha hb
  rw [hs] at ha
  rw [show ({ st with groupStates := assocPut st.groupStates s'.gid s' } : MemStore).groupStates
      = assocPut st.groupStates s'.gid s' from rfl, assocGet_assocPut] at hb
  by_cases hg : s'.gid = gid
  · rw [if_pos hg] at hb
    simp at ha hb
    omega
  · rw [if_neg hg, hs] at hb
    simp at ha hb
    omega

/-- C3: for every engine whose transitions never decrease the epoch, every
successful GroupSession operation (addMember, removeMember, encrypt,
decrypt, processCommit) leaves the epoch recorded in storage for the group
id at least as large as before the call. -/
theorem C3_epoch_monotone (e : Engine) (hm : e.EpochMonotone) (st : MemStore)
    (gid : Bytes) :
    (∀ kpb st' c, MLSGroup.add_member memStorageOps e st gid kpb = (st', .ok c) →
      ∀ a b, epochAt st gid = some a → epochAt st' gid = some b → a ≤ b) ∧
    (∀ mid st' c, MLSGroup.remove_member memStorageOps e st gid mid = (st', .ok c) →
      ∀ a b, epochAt st gid = some a → epochAt st' gid = some b → a ≤ b) ∧
    (∀ pt st' c, MLSGroup.encrypt_message memStorageOps e st gid pt = (st', .ok c) →
      ∀ a b, epochAt st gid = some a → epochAt st' gid = some b → a ≤ b) ∧
    (∀ cb st' pb, MLSGroup.decrypt_message memStorageOps e st gid cb = (st', .ok pb) →
      ∀ a b, epochAt st gid = some a → epochAt st' gid = some b → a ≤ b) ∧
    (∀ cb st' u, MLSGroup.process_commit memStorageOps e st gid cb = (st', .ok u) →
      ∀ a b, epochAt st gid = some a → epochAt st' gid = some b → a ≤ b) := by
  obtain ⟨hmAdd, hmRem, hmCreate, hmParse, hmProc⟩ := hm
  refine ⟨?_, ?_, ?_, ?_, ?_⟩
  · intro kpb st' c h a b ha hb
    rcases add_member_effect e st gid kpb with heff | ⟨s, kp, s', msg, w, hs, _, hadd, hput⟩
    · rw [h] at heff
      subst heff
      rw [ha] at hb
      exact le_of_eq (Option.some.inj hb)
    · rw [h] at hput
      subst hput
      exact epochAt_put_ge st gid s s' hs (hmAdd s kp (s', msg, w) hadd) a b ha hb
  · intro mid st' c h a b ha hb
    rcases remove_member_effect e st gid mid with heff | ⟨s, m, s', msg, w, hs, _, hrem, hput⟩
    · rw [h] at heff
      subst heff
      rw [ha] at hb
      exact le_of_eq (Option.some.inj hb)
    · rw [h] at hput
      subst hput
      exact epochAt_put_ge st gid s s' hs (hmRem s m.index (s', msg, w) hrem) a b ha hb
  · intro pt st' c h a b ha hb
    have heff := encrypt_message_fst memStorageOps e st gid pt
    rw [h] at heff
    subst heff
    rw [ha] at hb
    exact le_of_eq (Option.some.inj hb)
  · intro cb st' pb h a b ha hb
    rcases decrypt_message_effect e st gid cb with
      heff | ⟨s, msg, s1, uv, s2, content, hs, _, hparse, hproc, hput⟩
    · rw [h] at heff
      subst heff
      rw [ha] at hb
      exact le_of_eq (Option.some.inj hb)
    · rw [h] at hput
      subst hput
      have hle : s.epoch ≤ s2.epoch :=
        le_trans (hmParse s msg (s1, uv) hparse) (hmProc s1 uv (s2, content) hproc)
      exact epochAt_put_ge st gid s s2 hs hle a b ha hb
  · intro cb st' u h a b ha hb
    rcases process_commit_effect e st gid cb with
      heff | ⟨s, msg, s1, uv, s2, content, hs, _, hparse, hproc, hput⟩
    · rw [h] at heff
      subst heff
      rw [ha] at hb
      exact le_of_eq (Option.some.inj hb)
    · rw [h] at hput
      subst hput
      have hle : s.epoch ≤ s2.epoch :=
        le_trans (hmParse s msg (s1, uv) hparse) (hmProc s1 uv (s2, content) hproc)
      exact epochAt_put_ge st gid s s2 hs hle a b ha hb

/-- Witness for C3: adding a member to the epoch-0 group under `gidA`
produces a store whose epoch under `gidA` is 1, and 0 ≤ 1 follows from the
theorem. -/
theorem C3_witness :
    MLSGroup.add_member memStorageOps testEngine store1 gidA [118] =
      (⟨[(gidA, ⟨gidA, 1, [memUser1, ⟨1, .basic [118]⟩], []⟩)], []⟩,
        .ok { commit := [1], welcome := [[2]] }) ∧
    epochAt store1 gidA = some 0 ∧
    epochAt (⟨[(gidA, ⟨gidA, 1, [memUser1, ⟨1, .basic [118]⟩], []⟩)], []⟩ : MemStore)
      gidA = some 1 ∧
    (0 : Nat) ≤ 1 :=
  ⟨by decide, by decide, by decide,
   (C3_epoch_monotone testEngine testEngine_epochMonotone store1 gidA).1 [118]
     ⟨[(gidA, ⟨gidA, 1, [memUser1, ⟨1, .basic [118]⟩], []⟩)], []⟩
     { commit := [1], welcome := [[2]] } (by decide) 0 1 (by decide) (by decide)⟩

/-- C9: for every engine whose transitions preserve the group id, and a
store whose record under `gid` (if any) carries `gid` itself, every
GroupSession operation bound to `gid` leaves the storage record under any
other group id unchanged — whether the operation succeeds or fails. -/
theorem C9_frame (e : Engine) (hg : e.PreservesGid) (st : MemStore)
    (gid other : Bytes)
    (hwf : ∀ s, assocGet st.groupStates gid = some s → s.gid = gid)
    (hne : other ≠ gid) :
    (∀ kpb, assocGet (MLSGroup.add_member memStorageOps e st gid kpb).1.groupStates other =
      assocGet st.groupStates other) ∧
    (∀ mid, assocGet (MLSGroup.remove_member memStorageOps e st gid mid).1.groupStates other =
      assocGet st.groupStates other) ∧
    (∀ pt, assocGet (MLSGroup.encrypt_message memStorageOps e st gid pt).1.groupStates other =
      assocGet st.groupStates other) ∧
    (∀ cb, assocGet (MLSGroup.decrypt_message memStorageOps e st gid cb).1.groupStates other =
      assocGet st.groupStates other) ∧
    (∀ cb, assocGet (MLSGroup.process_commit memStorageOps e st gid cb).1.groupStates other =
      assocGet st.groupStates other) := by
  obtain ⟨hgAdd, hgRem, hgCreate, hgParse, hgProc⟩ := hg
  have frame : ∀ s' : EngineState, s'.gid = gid →
      assocGet (assocPut st.groupStates s'.gid s') other = assocGet st.groupStates other := by
    intro s' hsg
    rw [assocGet_assocPut, if_neg]
    rw [hsg]
    exact fun hx => hne hx.symm
  refine ⟨?_, ?_, ?_, ?_, ?_⟩
  · intro kpb
    rcases add_member_effect e st gid kpb with heff | ⟨s, kp, s', msg, w, hs, _, hadd, hput⟩
    · rw [heff]
    · rw [hput]
      exact frame s' ((hgAdd s kp (s', msg, w) hadd).trans (hwf s hs))
  · intro mid
    rcases remove_member_effect e st gid mid with heff | ⟨s, m, s', msg, w, hs, _, hrem, hput⟩
    · rw [heff]
    · rw [hput]
      exact frame s' ((hgRem s m.index (s', msg, w) hrem).trans (hwf s hs))
  · intro pt
    rw [encrypt_message_fst]
  · intro cb
    rcases decrypt_message_effect e st gid cb with
      heff | ⟨s, msg, s1, uv, s2, content, hs, _, hparse, hproc, hput⟩
    · rw [heff]
    · rw [hput]
      exact frame s2 (((hgProc s1 uv (s2, content) hproc).trans
        (hgParse s msg (s1, uv) hparse)).trans (hwf s hs))
  · intro cb
    rcases process_commit_effect e st gid cb with
      heff | ⟨s, msg, s1, uv, s2, content, hs, _, hparse, hproc, hput⟩
    · rw [heff]
    · rw [hput]
      exact frame s2 (((hgProc s1 uv (s2, content) hproc).trans
        (hgParse s msg (s1, uv) hparse)).trans (hwf s hs))

/-- Witness for C9: adding a member to the group under `gidA` leaves the
record stored under `gidB` untouched. -/
theorem C9_witness :
    gidB ≠ gidA ∧
    assocGet (MLSGroup.add_member memStorageOps testEngine store12 gidA [118]).1.groupStates
      gidB = assocGet store12.groupStates gidB :=
  ⟨by decide,
   (C9_frame testEngine testEngine_preservesGid store12 gidA gidB
     (fun s h => by injection h with h'; subst h'; rfl) (by decide)).1 [118]⟩
